import Mathlib

/-!
Verification development for the dataset editor in `src/MainWindow.tsx`.

The in-memory dataset is a plain JavaScript value
`{ headers: string[], rows: { date: string, values: {[k]: number}, hidden?: boolean }[] }`.
We embed it shallowly:

* JavaScript numeric cell values are modelled by `JsVal`: a finite value
  (as a rational), `NaN`, `Infinity`, `-Infinity`, or `undefined` (a
  property read on a missing key yields `undefined`, and assigning
  `undefined` still creates the property).
* A JavaScript object used as a string-keyed record is modelled as an
  insertion-ordered association list (`JsObj`).  `objSet` is property
  assignment (update in place if present, else append), `objDelete` is the
  `delete` operator, `fromEntries` is `Object.fromEntries`.  JavaScript
  objects never hold a duplicate key, so `objDelete` removing every
  occurrence of the key agrees with `delete` on all states a JavaScript
  object can take.
* Dates are kept as the strings the component stores; `parseIsoDate` /
  `formatIso` model `new Date("yyyy-MM-dd")` and date-fns
  `format(d, "yyyy-MM-dd")` at UTC, and `addMonths` models date-fns
  calendar-month addition (day-of-month clamped to the target month's
  length).
-/

inductive JsVal where
  | undef
  | nan
  | inf
  | negInf
  | num (q : ℚ)
deriving DecidableEq, Repr

/-- Global `isNaN`: coerces its argument to a number first, so
`isNaN(undefined) = true`. -/
def jsIsNaN : JsVal → Bool
  | .undef => true
  | .nan => true
  | _ => false

abbrev JsObj := List (String × JsVal)

/-- Property read `o[k]`; `none` models the key being absent
(the read itself evaluates to `undefined`). -/
def objGet (o : JsObj) (k : String) : Option JsVal :=
  match o with
  | [] => none
  | (k', v) :: rest => if k' = k then some v else objGet rest k

/-- Property assignment `o[k] = v`: updates in place when the key exists,
appends otherwise (JavaScript insertion-order semantics). -/
def objSet (o : JsObj) (k : String) (v : JsVal) : JsObj :=
  match o with
  | [] => [(k, v)]
  | (k', v') :: rest => if k' = k then (k', v) :: rest else (k', v') :: objSet rest k v

/-- The `delete o[k]` operator.  JavaScript objects carry each key at most
once, so removing every occurrence coincides with property deletion. -/
def objDelete (o : JsObj) (k : String) : JsObj :=
  match o with
  | [] => []
  | (k', v') :: rest => if k' = k then objDelete rest k else (k', v') :: objDelete rest k

/-- Model of `Object.fromEntries`: builds an object by assigning the pairs in order. -/
def fromEntries (l : JsObj) : JsObj :=
  l.foldl (fun acc kv => objSet acc kv.1 kv.2) []

structure Row where
  date : String
  values : JsObj
  hidden : Option Bool
deriving DecidableEq, Repr

structure Dataset where
  headers : List String
  rows : List Row
deriving DecidableEq, Repr

/-! ### Calendar dates -/

structure CDate where
  year : Nat
  month : Nat
  day : Nat
deriving DecidableEq, Repr

def isLeapYear (y : Nat) : Bool :=
  (y % 4 == 0 && y % 100 != 0) || y % 400 == 0

def daysInMonth (y m : Nat) : Nat :=
  if m = 2 then (if isLeapYear y then 29 else 28)
  else if m = 4 ∨ m = 6 ∨ m = 9 ∨ m = 11 then 30
  else 31

/-- date-fns `addMonths` (and, with a negative count, `subMonths`):
move to the target month and clamp the day of month to its length. -/
def addMonths (d : CDate) (n : Int) : CDate :=
  let total : Int := (d.year : Int) * 12 + (d.month : Int) - 1 + n
  let y := (Int.ediv total 12).toNat
  let m := (Int.emod total 12).toNat + 1
  { year := y, month := m, day := min d.day (daysInMonth y m) }

def digitsToNat? : List Char → Option Nat
  | [] => some 0
  | c :: cs =>
    if c.isDigit then
      (digitsToNat? cs).map (fun n => (c.toNat - 48) * 10 ^ cs.length + n)
    else
      none

/-- Model of `new Date(s)` for a date-only ISO string `yyyy-MM-dd`, at UTC.
`none` models an Invalid Date (ill-formed string or out-of-range
components). -/
def parseIsoDate (s : String) : Option CDate :=
  match s.data.splitOn '-' with
  | [ys, ms, ds] =>
    if ys.length = 4 ∧ ms.length = 2 ∧ ds.length = 2 then
      match digitsToNat? ys, digitsToNat? ms, digitsToNat? ds with
      | some y, some m, some d =>
        if 1 ≤ m ∧ m ≤ 12 ∧ 1 ≤ d ∧ d ≤ daysInMonth y m then
          some { year := y, month := m, day := d }
        else none
      | _, _, _ => none
    else none
  | _ => none

def padNat (width n : Nat) : List Char :=
  let ds := (toString n).data
  List.replicate (width - ds.length) '0' ++ ds

/-- date-fns `format(d, "yyyy-MM-dd")` (zero-padded components). -/
def formatIso (d : CDate) : String :=
  ⟨padNat 4 d.year ++ '-' :: padNat 2 d.month ++ '-' :: padNat 2 d.day⟩

/-! ### The component's operations (from `src/MainWindow.tsx`).

Each definition is the value-level result of the corresponding handler:
the dataset passed to `setData` (or the unchanged dataset when the handler
returns early or throws before reaching `setData`). -/

/-- Handler `prepareData`: copy of the dataset with `isNaN(value) ? 0 : value`
applied to every cell (the spec's `prepareForPersistence`). -/
def prepareData (d : Dataset) : Dataset :=
  { d with
    rows := d.rows.map (fun row =>
      { row with
        values := fromEntries (row.values.map (fun kv =>
          (kv.1, if jsIsNaN kv.2 then JsVal.num 0 else kv.2))) }) }

/-- Handler `applyLoadedData`: fills `hidden := row.hidden ?? false` on every row
(the spec's `normalizeLoaded`). -/
def applyLoadedData (d : Dataset) : Dataset :=
  { d with
    rows := d.rows.map (fun row => { row with hidden := some (row.hidden.getD false) }) }

/-- The string `format(new Date("2027-10-14"), "yyyy-MM-dd")`, the seed date used by
`addRow` on an empty table. -/
def seedDateStr : String := formatIso { year := 2027, month := 10, day := 14 }

/-- Handler `addRow`: on an empty table, one seed row with every header at `1.0`
and `hidden: false`; otherwise appends a row three months after the last
row, spreading (copying) the last row's `values`, with `hidden: true`.
An unparseable last date makes `format` throw inside the handler's
`try` block before `setData` runs, leaving the dataset unchanged. -/
def addRow (d : Dataset) : Dataset :=
  match d.rows.getLast? with
  | none =>
    { d with
      rows := [{ date := seedDateStr,
                 values := fromEntries (d.headers.map (fun h => (h, JsVal.num 1))),
                 hidden := some false }] }
  | some last =>
    match parseIsoDate last.date with
    | none => d
    | some dt =>
      { d with
        rows := d.rows ++ [{ date := formatIso (addMonths dt 3),
                             values := last.values,
                             hidden := some true }] }

/-- Handler `addColumn`: appends the header `"Lab {headers.length + 1}"` and sets
that key to `1.0` on every row. -/
def addColumn (d : Dataset) : Dataset :=
  let newHeader := "Lab " ++ toString (d.headers.length + 1)
  { headers := d.headers ++ [newHeader],
    rows := d.rows.map (fun row =>
      { row with values := objSet row.values newHeader (JsVal.num 1) }) }

/-- Handler `removeColumn`: filters the header out and deletes the key from every
row's `values`. -/
def removeColumn (d : Dataset) (headerToRemove : String) : Dataset :=
  { headers := d.headers.filter (fun header => header ≠ headerToRemove),
    rows := d.rows.map (fun row =>
      { row with values := objDelete row.values headerToRemove }) }

inductive RenameError where
  | duplicateColumnName
deriving DecidableEq, Repr

/-- Handler `updateHeader` (the spec's `renameColumn`): rejects a collision with a
different existing header, leaving the dataset untouched; otherwise maps
the header list, assigns `newValues[newHeader] = newValues[oldHeader]`
(reading `undefined` when `oldHeader` is absent) and then
`delete newValues[oldHeader]` on every row. -/
def updateHeader (d : Dataset) (oldHeader newHeader : String) :
    Dataset × Option RenameError :=
  if d.headers.contains newHeader && newHeader != oldHeader then
    (d, some .duplicateColumnName)
  else
    ({ headers := d.headers.map (fun header =>
         if header = oldHeader then newHeader else header),
       rows := d.rows.map (fun row =>
         let withNew := objSet row.values newHeader
           ((objGet row.values oldHeader).getD JsVal.undef)
         { row with values := objDelete withNew oldHeader }) },
     none)

/-- Handler `incrementMonth`: the new snapshot's value — row `rowIndex`'s date
becomes one calendar month later.  An out-of-range index or unparseable
date throws before `setData`, leaving the dataset value unchanged. -/
def incrementMonth (d : Dataset) (rowIndex : Nat) : Dataset :=
  match d.rows[rowIndex]? with
  | none => d
  | some row =>
    match parseIsoDate row.date with
    | none => d
    | some dt =>
      { d with rows := d.rows.set rowIndex { row with date := formatIso (addMonths dt 1) } }

/-- Handler `decrementMonth`: as `incrementMonth`, with `subMonths(date, 1)`. -/
def decrementMonth (d : Dataset) (rowIndex : Nat) : Dataset :=
  match d.rows[rowIndex]? with
  | none => d
  | some row =>
    match parseIsoDate row.date with
    | none => d
    | some dt =>
      { d with rows := d.rows.set rowIndex { row with date := formatIso (addMonths dt (-1)) } }

/-- Handler `updateValue` (the spec's `setCellValue`): the new snapshot's value.
The `numValue` argument stands for `parseFloat(value)`, which may be
`NaN` on an unparseable string. -/
def updateValue (d : Dataset) (rowIndex : Nat) (header : String) (numValue : JsVal) : Dataset :=
  match d.rows[rowIndex]? with
  | none => d
  | some row =>
    { d with rows := d.rows.set rowIndex { row with values := objSet row.values header numValue } }

/-- Handler `removeRow`: `rows.filter((_, index) => index !== rowIndex)`.  The
index is an arbitrary JavaScript number, so it is taken as an integer. -/
def removeRow (d : Dataset) (rowIndex : Int) : Dataset :=
  { d with
    rows := (d.rows.enum.filter (fun p => (p.1 : Int) ≠ rowIndex)).map Prod.snd }

/-- JavaScript truthiness of the optional `hidden` field
(`!undefined = true`). -/
def jsTruthy : Option Bool → Bool
  | none => false
  | some b => b

/-- Handler `toggleRowVisibility` (the spec's `toggleRowHidden`): the new
snapshot's value — row `rowIndex`'s `hidden` flag negated. -/
def toggleRowVisibility (d : Dataset) (rowIndex : Nat) : Dataset :=
  match d.rows[rowIndex]? with
  | none => d
  | some row =>
    { d with rows := d.rows.set rowIndex { row with hidden := some (!jsTruthy row.hidden) } }

/-! ### Association-list lemmas -/

theorem objGet_objSet (o : JsObj) (k j : String) (v : JsVal) :
    objGet (objSet o k v) j = if j = k then some v else objGet o j := by
  induction o with
  | nil =>
    by_cases h : j = k
    · subst h; simp [objSet, objGet]
    · have h' : ¬k = j := fun hh => h hh.symm
      simp [objSet, objGet, h, h']
  | cons kv rest ih =>
    obtain ⟨k', v'⟩ := kv
    by_cases h1 : k' = k
    · subst h1
      by_cases h : j = k'
      · subst h; simp [objSet, objGet]
      · have h' : ¬k' = j := fun hh => h hh.symm
        simp [objSet, objGet, h, h']
    · by_cases h2 : k' = j
      · subst h2
        have h' : ¬k = k' := fun hh => h1 hh.symm
        simp [objSet, objGet, h1, h']
      · simp [objSet, objGet, h1, h2, ih]

theorem objGet_objDelete (o : JsObj) (k j : String) :
    objGet (objDelete o k) j = if j = k then none else objGet o j := by
  induction o with
  | nil => simp [objDelete, objGet]
  | cons kv rest ih =>
    obtain ⟨k', v'⟩ := kv
    by_cases h1 : k' = k
    · subst h1
      by_cases h : j = k'
      · subst h; simp [objDelete, objGet, ih]
      · have h' : ¬k' = j := fun hh => h hh.symm
        simp [objDelete, objGet, ih, h, h']
    · by_cases h2 : k' = j
      · subst h2
        have h' : ¬k' = k := h1
        simp [objDelete, objGet, h1, ih, h']
      · simp [objDelete, objGet, h1, h2, ih]

theorem objGet_isSome_iff (o : JsObj) (k : String) :
    (objGet o k).isSome = true ↔ k ∈ o.map Prod.fst := by
  induction o with
  | nil => simp [objGet]
  | cons kv rest ih =>
    obtain ⟨k', v'⟩ := kv
    by_cases h : k' = k
    · subst h; simp [objGet]
    · have h' : ¬k = k' := fun hh => h hh.symm
      simp [objGet, h, h', ih]

theorem foldl_objSet_const (l : List String) (v : JsVal) (k : String) (acc : JsObj) :
    objGet ((l.map (fun h => (h, v))).foldl (fun a kv => objSet a kv.1 kv.2) acc) k =
      if k ∈ l then some v else objGet acc k := by
  induction l generalizing acc with
  | nil => simp
  | cons hd t ih =>
    simp only [List.map_cons, List.foldl_cons, ih, objGet_objSet]
    by_cases h1 : k ∈ t <;> by_cases h2 : k = hd <;> simp [h1, h2]

/-- Evaluation of `Object.fromEntries(headers.map(h => [h, v]))`: maps exactly the listed
keys to `v`. -/
theorem objGet_fromEntries_const (l : List String) (v : JsVal) (k : String) :
    objGet (fromEntries (l.map (fun h => (h, v)))) k = if k ∈ l then some v else none := by
  simpa [fromEntries] using foldl_objSet_const l v k []

theorem objSet_append_of_not_mem (o : JsObj) (k : String) (v : JsVal)
    (h : k ∉ o.map Prod.fst) : objSet o k v = o ++ [(k, v)] := by
  induction o with
  | nil => simp [objSet]
  | cons kv rest ih =>
    obtain ⟨k', v'⟩ := kv
    simp only [List.map_cons, List.mem_cons, not_or] at h
    have h1 : ¬k' = k := fun hh => h.1 hh.symm
    simp [objSet, h1, ih h.2]

theorem foldl_objSet_of_nodup (l : JsObj) (acc : JsObj)
    (hnd : (l.map Prod.fst).Nodup)
    (hdisj : ∀ k ∈ l.map Prod.fst, k ∉ acc.map Prod.fst) :
    l.foldl (fun a kv => objSet a kv.1 kv.2) acc = acc ++ l := by
  induction l generalizing acc with
  | nil => simp
  | cons kv rest ih =>
    obtain ⟨k, v⟩ := kv
    simp only [List.map_cons, List.nodup_cons] at hnd
    have hk : k ∉ acc.map Prod.fst := hdisj k (by simp)
    simp only [List.foldl_cons, objSet_append_of_not_mem acc k v hk]
    rw [ih (acc ++ [(k, v)]) hnd.2]
    · simp
    · intro j hj
      simp only [List.map_append, List.mem_append, List.map_cons, List.map_nil,
        List.mem_singleton, not_or]
      refine ⟨hdisj j (by simp [hj]), ?_⟩
      intro hjk
      exact hnd.1 (hjk ▸ hj)

/-- On an object with no duplicate key — every JavaScript object —
`Object.fromEntries(Object.entries(o))` rebuilds `o` itself. -/
theorem fromEntries_eq_self (l : JsObj) (hnd : (l.map Prod.fst).Nodup) :
    fromEntries l = l := by
  simpa [fromEntries] using foldl_objSet_of_nodup l [] hnd (by simp)

/-! ### Invariant 2: every row's value-key set equals the header set -/

/-- Spec invariant 2: for every row,
`Object.keys(row.values) == Set(headers)` (as sets). -/
def inv2 (d : Dataset) : Bool :=
  d.rows.all (fun r =>
    r.values.all (fun kv => d.headers.contains kv.1) &&
    d.headers.all (fun h => (objGet r.values h).isSome))

theorem inv2_iff (d : Dataset) :
    inv2 d = true ↔
      ∀ r ∈ d.rows, ∀ k, ((objGet r.values k).isSome = true ↔ k ∈ d.headers) := by
  simp only [inv2, List.all_eq_true, Bool.and_eq_true]
  constructor
  · rintro h r hr k
    obtain ⟨h1, h2⟩ := h r hr
    constructor
    · intro hs
      rw [objGet_isSome_iff] at hs
      obtain ⟨⟨k1, v1⟩, hkv, hk⟩ := List.mem_map.mp hs
      have := h1 _ hkv
      simp only [List.contains_iff_exists_mem_beq, beq_iff_eq] at this
      obtain ⟨x, hx, hxe⟩ := this
      subst hk
      simpa [hxe] using hx
    · intro hk
      exact h2 k hk
  · rintro h r hr
    refine ⟨fun kv hkv => ?_, fun k hk => (h r hr k).mpr hk⟩
    have : (objGet r.values kv.1).isSome = true := by
      rw [objGet_isSome_iff]
      exact List.mem_map.mpr ⟨kv, hkv, rfl⟩
    have hmem := (h r hr kv.1).mp this
    simp only [List.contains_iff_exists_mem_beq, beq_iff_eq]
    exact ⟨kv.1, hmem, rfl⟩

theorem inv2_addColumn (d : Dataset) (h2 : inv2 d = true) :
    inv2 (addColumn d) = true := by
  rw [inv2_iff] at h2 ⊢
  intro r hr k
  simp only [addColumn, List.mem_map] at hr
  obtain ⟨r0, hr0, rfl⟩ := hr
  simp only [addColumn, objGet_objSet, List.mem_append, List.mem_singleton]
  by_cases hk : k = "Lab " ++ toString (d.headers.length + 1)
  · simp [hk]
  · simp [hk, h2 r0 hr0 k]

theorem inv2_removeColumn (d : Dataset) (hrem : String) (h2 : inv2 d = true) :
    inv2 (removeColumn d hrem) = true := by
  rw [inv2_iff] at h2 ⊢
  intro r hr k
  simp only [removeColumn, List.mem_map] at hr
  obtain ⟨r0, hr0, rfl⟩ := hr
  simp only [removeColumn, objGet_objDelete, List.mem_filter, decide_eq_true_eq]
  by_cases hk : k = hrem
  · simp [hk]
  · simp [hk, h2 r0 hr0 k]

theorem mem_map_rename (l : List String) (o n k : String) :
    k ∈ l.map (fun h => if h = o then n else h) ↔ (k = n ∧ o ∈ l) ∨ (k ≠ o ∧ k ∈ l) := by
  simp only [List.mem_map]
  constructor
  · rintro ⟨h0, hh0, hf⟩
    by_cases h : h0 = o
    · subst h; rw [if_pos rfl] at hf; exact Or.inl ⟨hf.symm, hh0⟩
    · rw [if_neg h] at hf; subst hf; exact Or.inr ⟨h, hh0⟩
  · rintro (⟨rfl, ho⟩ | ⟨hko, hk⟩)
    · exact ⟨o, ho, by simp⟩
    · exact ⟨k, hk, by simp [hko]⟩

/-- The renameColumn calls that preserve invariant 2 (see
`C1_counterexample` and `C3` for the two excluded families): renaming a
header to its own current name deletes its value key, and renaming an
absent old name to a fresh name plants a stray `undefined` key. -/
def goodRename (d : Dataset) (oldHeader newHeader : String) : Bool :=
  if newHeader = oldHeader then !(d.headers.contains oldHeader)
  else d.headers.contains oldHeader || d.headers.contains newHeader

theorem inv2_updateHeader (d : Dataset) (o n : String) (h2 : inv2 d = true)
    (hg : goodRename d o n = true) : inv2 (updateHeader d o n).1 = true := by
  by_cases hguard : (d.headers.contains n && n != o) = true
  · simpa only [updateHeader, if_pos hguard] using h2
  · rw [inv2_iff] at h2 ⊢
    simp only [updateHeader, if_neg hguard]
    intro r hr k
    simp only [List.mem_map] at hr
    obtain ⟨r0, hr0, rfl⟩ := hr
    have hchar := h2 r0 hr0
    simp only [objGet_objDelete, objGet_objSet, mem_map_rename]
    by_cases hno : n = o
    · subst hno
      have ho : n ∉ d.headers := by simpa [goodRename] using hg
      by_cases hk : k = n
      · subst hk; simp [ho]
      · simp [hk, hchar k]
    · have himp : n ∈ d.headers → n = o := by
        intro hmem
        by_contra hne
        exact hguard (by simp [hmem, hne])
      have hn : n ∉ d.headers := fun hmem => hno (himp hmem)
      have ho : o ∈ d.headers := by
        have := hg
        simp only [goodRename, if_neg hno, Bool.or_eq_true] at this
        rcases this with h | h
        · simpa using h
        · exact absurd (by simpa using h) hn
      by_cases hk : k = o
      · subst hk
        have hkn : ¬k = n := fun hh => hno hh.symm
        simp [hkn]
      · by_cases hkn : k = n
        · subst hkn; simp [hk, ho]
        · simp [hk, hkn, hchar k]

/-- A structural operation of the spec's `addColumn` / `removeColumn` /
`renameColumn` family. -/
inductive TableOp where
  | addCol
  | removeCol (header : String)
  | renameCol (oldHeader newHeader : String)
deriving DecidableEq, Repr

def applyOp (d : Dataset) : TableOp → Dataset
  | .addCol => addColumn d
  | .removeCol h => removeColumn d h
  | .renameCol o n => (updateHeader d o n).1

def applyOps (d : Dataset) : List TableOp → Dataset
  | [] => d
  | op :: ops => applyOps (applyOp d op) ops

def goodOp (d : Dataset) : TableOp → Bool
  | .renameCol o n => goodRename d o n
  | _ => true

/-- Every operation of the sequence is `goodOp` at the state it is
applied to. -/
def goodSeq (d : Dataset) : List TableOp → Bool
  | [] => true
  | op :: ops => goodOp d op && goodSeq (applyOp d op) ops

theorem inv2_applyOp (d : Dataset) (op : TableOp) (h2 : inv2 d = true)
    (hg : goodOp d op = true) : inv2 (applyOp d op) = true := by
  cases op with
  | addCol => exact inv2_addColumn d h2
  | removeCol h => exact inv2_removeColumn d h h2
  | renameCol o n => exact inv2_updateHeader d o n h2 hg

/-- A one-column dataset with one row, satisfying invariant 2. -/
def sampleDataset : Dataset :=
  { headers := ["A"],
    rows := [{ date := "2027-10-14", values := [("A", JsVal.num 1)], hidden := some false }] }

/-- C1 (counterexample): the claim fails as stated.  `sampleDataset`
satisfies invariant 2, but after the single operation
`renameColumn("B", "C")` — both names absent from the headers — the rows
gain a stray `"C"` key (assigned `undefined` by
`newValues[newHeader] = newValues[oldHeader]`), so the value-key set no
longer equals the header set. -/
theorem C1_counterexample :
    inv2 sampleDataset = true ∧
      inv2 (applyOps sampleDataset [TableOp.renameCol "B" "C"]) = false := by
  decide

/-- C1 (amended): for every dataset satisfying invariant 2 and every
sequence of addColumn / removeColumn / renameColumn operations in which
each renameColumn(old, new) call is `goodRename` at its state — if
new = old then old is not a current header, and if new ≠ old then old or
new is a current header — invariant 2 holds again after each operation of
the sequence (after every prefix). -/
theorem C1_inv2_preserved (d : Dataset) (ops : List TableOp)
    (h2 : inv2 d = true) (hg : goodSeq d ops = true) (n : Nat) :
    inv2 (applyOps d (ops.take n)) = true := by
  induction ops generalizing d n with
  | nil =>
    simpa [applyOps, List.take_nil] using h2
  | cons op ops ih =>
    simp only [goodSeq, Bool.and_eq_true] at hg
    cases n with
    | zero => simpa [applyOps] using h2
    | succ m =>
      simp only [List.take_succ_cons, applyOps]
      exact ih (applyOp d op) (inv2_applyOp d op h2 hg.1) hg.2 m

/-- C1 witness: a concrete good sequence (add a column, rename an existing
header to a fresh name, remove a column) keeps invariant 2. -/
theorem C1_witness :
    inv2 (applyOps sampleDataset
      ([TableOp.addCol, TableOp.renameCol "A" "X", TableOp.removeCol "Lab 2"].take 3)) = true :=
  C1_inv2_preserved sampleDataset
    [TableOp.addCol, TableOp.renameCol "A" "X", TableOp.removeCol "Lab 2"]
    (by decide) (by decide) 3

/-- C2: renameColumn(old, new) where new already exists as a header
different from old raises DuplicateColumnName and returns the dataset
itself, byte-for-byte unchanged. -/
theorem C2_duplicate_rename_rejected (d : Dataset) (oldH newH : String)
    (hmem : newH ∈ d.headers) (hne : newH ≠ oldH) :
    updateHeader d oldH newH = (d, some RenameError.duplicateColumnName) := by
  have hguard : (d.headers.contains newH && newH != oldH) = true := by
    simp [hmem, hne]
  unfold updateHeader
  rw [if_pos hguard]

/-- C2 witness: renaming "A" to the existing header "B". -/
theorem C2_witness :
    updateHeader { headers := ["A", "B"], rows := [] } "A" "B" =
      ({ headers := ["A", "B"], rows := [] }, some RenameError.duplicateColumnName) :=
  C2_duplicate_rename_rejected { headers := ["A", "B"], rows := [] } "A" "B"
    (by decide) (by decide)

/-- C3 (code bug): renaming a header to its own current name is NOT a
no-op.  The duplicate guard exempts `newHeader === oldHeader`, and the
body then runs `newValues[newHeader] = newValues[oldHeader]` followed by
`delete newValues[oldHeader]` — the same key — so the rename reports
success (no error) yet deletes that header's value from every row,
changing the dataset (and breaking invariant 2). -/
theorem C3_rename_same_name_deletes_values :
    (updateHeader sampleDataset "A" "A").2 = none ∧
    (updateHeader sampleDataset "A" "A").1 =
      { headers := ["A"],
        rows := [{ date := "2027-10-14", values := [], hidden := some false }] } ∧
    (updateHeader sampleDataset "A" "A").1 ≠ sampleDataset := by
  decide

/-- A dataset holding an `Infinity` cell (reachable: `parseFloat("1e999")`
is `Infinity`, which the cell editor stores as-is). -/
def infDataset : Dataset :=
  { headers := ["A"],
    rows := [{ date := "2027-10-14", values := [("A", JsVal.inf)], hidden := some false }] }

/-- C5 (counterexample): the claim fails as stated.  An `Infinity` cell is
a non-finite numeric value, but `isNaN(Infinity)` is `false`, so
`prepareData` keeps it instead of replacing it with `0`. -/
theorem C5_counterexample :
    prepareData infDataset = infDataset ∧ JsVal.inf ≠ JsVal.num 0 := by
  decide

/-- C5 (amended): `prepareData` returns a copy in which every `NaN` cell
(and a cell holding `undefined`, which `isNaN` also maps to `true`) is
replaced with `0`, while headers, dates, hidden flags and all other cell
values — finite or infinite — are unchanged; it is a pure copy, so the
input dataset is not mutated. -/
theorem C5_prepareData_replaces_nan (d : Dataset)
    (hnd : ∀ r ∈ d.rows, (r.values.map Prod.fst).Nodup) :
    (prepareData d).headers = d.headers ∧
    (prepareData d).rows = d.rows.map (fun r =>
      { r with values := r.values.map (fun kv =>
          (kv.1, if jsIsNaN kv.2 then JsVal.num 0 else kv.2)) }) := by
  refine ⟨rfl, ?_⟩
  simp only [prepareData]
  apply List.map_eq_map_iff.mpr
  intro r hr
  have hkeys : ((r.values.map (fun kv =>
      (kv.1, if jsIsNaN kv.2 then JsVal.num 0 else kv.2))).map Prod.fst) =
      r.values.map Prod.fst := by
    simp [List.map_map, Function.comp_def]
  rw [fromEntries_eq_self _ (hkeys ▸ hnd r hr)]

/-- A dataset with one `NaN` cell, as left behind by an unparseable edit. -/
def nanDataset : Dataset :=
  { headers := ["A"],
    rows := [{ date := "2027-10-14", values := [("A", JsVal.nan)], hidden := some false }] }

/-- C5 witness: the amended statement at `nanDataset` (its `NaN` cell
becomes `0`, everything else is kept). -/
theorem C5_witness :
    (prepareData nanDataset).headers = nanDataset.headers ∧
    (prepareData nanDataset).rows = nanDataset.rows.map (fun r =>
      { r with values := r.values.map (fun kv =>
          (kv.1, if jsIsNaN kv.2 then JsVal.num 0 else kv.2)) }) :=
  C5_prepareData_replaces_nan nanDataset (by decide)

/-- C7: `addRow` on a dataset with no rows produces exactly one row, dated
2027-10-14, with every current header mapped to 1.0 (and no other key)
and `hidden = false`; the headers are untouched. -/
theorem C7_addRow_empty (d : Dataset) (h : d.rows = []) :
    (addRow d).headers = d.headers ∧
    ∃ r, (addRow d).rows = [r] ∧
      r.date = "2027-10-14" ∧
      r.hidden = some false ∧
      ∀ hd, objGet r.values hd = if hd ∈ d.headers then some (JsVal.num 1) else none := by
  have hl : d.rows.getLast? = none := by rw [h]; rfl
  refine ⟨by simp [addRow, hl],
    ⟨{ date := seedDateStr,
       values := fromEntries (d.headers.map (fun hd => (hd, JsVal.num 1))),
       hidden := some false },
     by simp [addRow, hl], (by decide : seedDateStr = "2027-10-14"), rfl, ?_⟩⟩
  intro hd
  exact objGet_fromEntries_const d.headers (JsVal.num 1) hd

/-- C7 witness: the empty-dataset branch at a two-column table. -/
theorem C7_witness :
    (addRow { headers := ["A", "B"], rows := [] }).headers =
      (Dataset.mk ["A", "B"] []).headers ∧
    ∃ r, (addRow { headers := ["A", "B"], rows := [] }).rows = [r] ∧
      r.date = "2027-10-14" ∧
      r.hidden = some false ∧
      ∀ hd, objGet r.values hd =
        if hd ∈ (Dataset.mk ["A", "B"] []).headers then some (JsVal.num 1) else none :=
  C7_addRow_empty { headers := ["A", "B"], rows := [] } rfl

/-- C8: `addRow` on a non-empty dataset appends exactly one row, dated
three calendar months after the previous last row (day clamped to the
target month), whose `values` is the very same mapping as the previous
last row's — copied, not recomputed — with `hidden = true`; the existing
rows and headers are unchanged. -/
theorem C8_addRow_nonempty (d : Dataset) (last : Row) (dt : CDate)
    (hl : d.rows.getLast? = some last) (hd : parseIsoDate last.date = some dt) :
    addRow d = { d with rows := d.rows ++
      [{ date := formatIso (addMonths dt 3), values := last.values, hidden := some true }] } := by
  simp [addRow, hl, hd]

/-- A one-row dataset dated 2027-01-15. -/
def janDataset : Dataset :=
  { headers := ["A"],
    rows := [{ date := "2027-01-15", values := [("A", JsVal.num 2)], hidden := some false }] }

/-- C8 witness: appending to `janDataset` copies its values and lands on
2027-04-15. -/
theorem C8_witness :
    addRow janDataset = { janDataset with rows := janDataset.rows ++
      [{ date := formatIso (addMonths { year := 2027, month := 1, day := 15 } 3),
         values := [("A", JsVal.num 2)], hidden := some true }] } ∧
    formatIso (addMonths { year := 2027, month := 1, day := 15 } 3) = "2027-04-15" :=
  ⟨C8_addRow_nonempty janDataset
      { date := "2027-01-15", values := [("A", JsVal.num 2)], hidden := some false }
      { year := 2027, month := 1, day := 15 } (by decide) (by decide),
   by decide⟩

/-- A one-row dataset dated 2027-01-31. -/
def jan31Dataset : Dataset :=
  { headers := ["A"],
    rows := [{ date := "2027-01-31", values := [("A", JsVal.num 1)], hidden := some false }] }

/-- C9: shifting the row dated 2027-01-31 forward by one month yields
2027-02-28 — calendar-month addition clamped to the last valid day of
February 2027 (a non-leap year), not a fixed 30-day increment (which
would land on 2027-03-02). -/
theorem C9_jan31_plus_one_month :
    (incrementMonth jan31Dataset 0).rows.map Row.date = ["2027-02-28"] := by
  decide

/-- C10: `removeRow` with any row index outside `[0, rows.length)` —
negative or past the end — filters out nothing, returning the dataset
unchanged, and raises no error. -/
theorem C10_removeRow_out_of_range (d : Dataset) (i : Int)
    (h : i < 0 ∨ (d.rows.length : Int) ≤ i) :
    removeRow d i = d := by
  unfold removeRow
  have hfilter : d.rows.enum.filter (fun p => (p.1 : Int) ≠ i) = d.rows.enum := by
    apply List.filter_eq_self.mpr
    intro p hp
    have hlt : p.1 < d.rows.length := List.fst_lt_of_mem_enum hp
    simp only [ne_eq, decide_eq_true_eq]
    rcases h with h | h <;> omega
  rw [hfilter, List.enum_map_snd]

/-- C10 witness: index −1 on the one-row sample dataset. -/
theorem C10_witness : removeRow sampleDataset (-1) = sampleDataset :=
  C10_removeRow_out_of_range sampleDataset (-1) (by decide)

/-! ### Aliasing model for snapshot immutability (C6)

`incrementMonth`, `decrementMonth`, `updateValue` and
`toggleRowVisibility` build `const newRows = [...data.rows]` — a copy of
the row *reference* array only — and then assign into
`newRows[rowIndex]`, the very row object the previous snapshot still
holds.  To expose this we model rows as heap objects: a heap of row
records addressed by index, and a dataset value holding row references. -/

abbrev Heap := List Row

structure DatasetRef where
  headers : List String
  rowRefs : List Nat
deriving DecidableEq, Repr

/-- The dataset a snapshot observes: its row references dereferenced in a
given heap. -/
def viewDataset (h : Heap) (d : DatasetRef) : Dataset :=
  { headers := d.headers, rows := d.rowRefs.filterMap (fun addr => h[addr]?) }

/-- Handler `toggleRowVisibility` at the reference level:
`const newRows = [...data.rows]` copies only the reference array, and
`newRows[rowIndex].hidden = !newRows[rowIndex].hidden` writes through the
shared reference into the heap. -/
def toggleRowVisibilityJs (h : Heap) (d : DatasetRef) (rowIndex : Nat) :
    Heap × DatasetRef :=
  let newRows := d.rowRefs
  match newRows[rowIndex]? with
  | none => (h, d)
  | some addr =>
    match h[addr]? with
    | none => (h, d)
    | some row =>
      (h.set addr { row with hidden := some (!jsTruthy row.hidden) },
       { d with rowRefs := newRows })

/-- One shared row object at address 0, referenced by the snapshot. -/
def c6Heap : Heap :=
  [{ date := "2027-10-14", values := [("Lab 1", JsVal.num 1)], hidden := some false }]

def c6Ref : DatasetRef := { headers := ["Lab 1"], rowRefs := [0] }

/-- C6 (code bug): toggling row 0 mutates the row object the previous
snapshot still references — viewed in the post-mutation heap, the
previous snapshot has changed (its row's `hidden` flag flipped from
`false` to `true`), so the engine does not treat the previous snapshot as
immutable.  `updateValue`, `incrementMonth` and `decrementMonth` share
the same `newRows[rowIndex].field = …` pattern; `addRow`, `addColumn`,
`removeColumn`, `updateHeader` and `removeRow` rebuild row objects and do
leave the previous snapshot intact. -/
theorem C6_toggle_mutates_previous_snapshot :
    viewDataset (toggleRowVisibilityJs c6Heap c6Ref 0).1 c6Ref ≠
      viewDataset c6Heap c6Ref ∧
    (viewDataset (toggleRowVisibilityJs c6Heap c6Ref 0).1 c6Ref).rows.map Row.hidden =
      [some true] := by
  decide

/-! ### Persistence round trip (C4)

Saving writes `JSON.stringify(prepareData(), null, 2)`; loading reads the
file, `JSON.parse`s it, runs the schema validator and then
`applyLoadedData`.  The string layer is modelled at the JSON-value level:
pretty-printing a JSON value and parsing the text back is the identity on
the value, so the persisted artifact is represented by the `Json` tree
itself. -/

inductive Json where
  | null
  | jbool (b : Bool)
  | jnum (q : ℚ)
  | jstr (s : String)
  | jarr (elems : List Json)
  | jobj (fields : List (String × Json))

def jsonGet : List (String × Json) → String → Option Json
  | [], _ => none
  | (k, v) :: rest, key => if k = key then some v else jsonGet rest key

/-- Effect of `JSON.stringify` on a `values` record: a property holding `undefined`
is omitted, `NaN` and `±Infinity` serialize as `null`, finite numbers as
numbers. -/
def valuesToJson (o : JsObj) : List (String × Json) :=
  o.filterMap (fun kv => match kv.2 with
    | .undef => none
    | .num q => some (kv.1, Json.jnum q)
    | _ => some (kv.1, Json.null))

/-- Effect of `JSON.stringify` on a row; an `undefined` `hidden` property is
omitted. -/
def rowToJson (r : Row) : Json :=
  .jobj ([("date", Json.jstr r.date), ("values", Json.jobj (valuesToJson r.values))] ++
    (match r.hidden with
     | none => []
     | some b => [("hidden", Json.jbool b)]))

/-- The JSON document `JSON.stringify(dataset, null, 2)` encodes. -/
def datasetToJson (d : Dataset) : Json :=
  .jobj [("headers", Json.jarr (d.headers.map Json.jstr)),
         ("rows", Json.jarr (d.rows.map rowToJson))]

/-- Modelled from the spec: part of the schema validator `dataSchema`
(`src/dataSchema.ts` is not among the sources) — `headers` must be a
sequence of strings. -/
def parseHeadersJ : List Json → Option (List String)
  | [] => some []
  | .jstr s :: rest => (parseHeadersJ rest).map (fun t => s :: t)
  | _ => none

/-- Modelled from the spec: part of the schema validator `dataSchema`
(`src/dataSchema.ts` is not among the sources) — `values` must map
strings to numbers. -/
def parseValuesJ : List (String × Json) → Option JsObj
  | [] => some []
  | (k, .jnum q) :: rest => (parseValuesJ rest).map (fun t => (k, JsVal.num q) :: t)
  | _ => none

/-- Modelled from the spec: part of the schema validator `dataSchema`
(`src/dataSchema.ts` is not among the sources) — a row is an object with
a parseable date string, a `values` object mapping strings to numbers,
and an optional boolean `hidden` (§4.1). -/
def parseRowJ : Json → Option Row
  | .jobj fields =>
    match jsonGet fields "date" with
    | some (.jstr ds) =>
      if (parseIsoDate ds).isSome then
        match jsonGet fields "values" with
        | some (.jobj kvs) =>
          match parseValuesJ kvs with
          | some vs =>
            match jsonGet fields "hidden" with
            | none => some { date := ds, values := vs, hidden := none }
            | some (.jbool b) => some { date := ds, values := vs, hidden := some b }
            | some _ => none
          | none => none
        | _ => none
      else none
    | _ => none
  | _ => none

/-- Modelled from the spec: part of the schema validator `dataSchema`
(`src/dataSchema.ts` is not among the sources) — `rows` is a sequence of
row objects. -/
def parseRowsJ : List Json → Option (List Row)
  | [] => some []
  | j :: rest =>
    match parseRowJ j with
    | some r => (parseRowsJ rest).map (fun t => r :: t)
    | none => none

/-- Modelled from the spec: the schema validator `dataSchema.safeParse`
(`src/dataSchema.ts` is not among the sources), §4.1: structurally
validates the parsed JSON document and returns the typed dataset, or
fails. -/
def parseDataJ : Json → Option Dataset
  | .jobj fields =>
    match jsonGet fields "headers", jsonGet fields "rows" with
    | some (.jarr hs), some (.jarr rs) =>
      match parseHeadersJ hs, parseRowsJ rs with
      | some headers, some rows => some { headers := headers, rows := rows }
      | _, _ => none
    | _, _ => none
  | _ => none

/-- The load pipeline after the file read: parse (AST level), validate,
normalize (`applyLoadedData`). -/
def loadFromJson (j : Json) : Option Dataset :=
  (parseDataJ j).map applyLoadedData

/-- A cell the save pipeline can persist as a number: finite, or
`NaN`/`undefined` (normalized to `0` on save).  Infinities survive
`prepareData` but stringify to `null`, which the schema rejects. -/
def savableVal : JsVal → Bool
  | .inf => false
  | .negInf => false
  | _ => true

/-- A valid dataset for the round-trip law: every row has a parseable
`yyyy-MM-dd` date, no infinite cell, and — like every JavaScript object —
no duplicate key in its `values` record. -/
def validDataset (d : Dataset) : Bool :=
  d.rows.all (fun r =>
    (parseIsoDate r.date).isSome &&
    r.values.all (fun kv => savableVal kv.2) &&
    decide (r.values.map Prod.fst).Nodup)

theorem parseHeadersJ_map (hs : List String) :
    parseHeadersJ (hs.map Json.jstr) = some hs := by
  induction hs with
  | nil => rfl
  | cons h t ih => simp [parseHeadersJ, ih]

theorem parseValuesJ_valuesToJson (o : JsObj)
    (h : ∀ kv ∈ o, ∃ q, kv.2 = JsVal.num q) :
    parseValuesJ (valuesToJson o) = some o := by
  induction o with
  | nil => rfl
  | cons kv rest ih =>
    obtain ⟨k, v⟩ := kv
    obtain ⟨q, hq⟩ := h (k, v) (by simp)
    simp only at hq
    subst hq
    have ih' := ih (fun kv hkv => h kv (by simp [hkv]))
    simp only [valuesToJson] at ih' ⊢
    simp [List.filterMap_cons, parseValuesJ, ih']

theorem parseRowJ_rowToJson (r : Row) (hd : (parseIsoDate r.date).isSome = true)
    (hv : ∀ kv ∈ r.values, ∃ q, kv.2 = JsVal.num q) :
    parseRowJ (rowToJson r) = some r := by
  obtain ⟨rdate, rvalues, rhidden⟩ := r
  simp only at hd hv
  cases rhidden with
  | none =>
    simp [rowToJson, parseRowJ, jsonGet, hd, parseValuesJ_valuesToJson rvalues hv]
  | some b =>
    simp [rowToJson, parseRowJ, jsonGet, hd, parseValuesJ_valuesToJson rvalues hv]

theorem parseRowsJ_map (rs : List Row)
    (h : ∀ r ∈ rs, parseRowJ (rowToJson r) = some r) :
    parseRowsJ (rs.map rowToJson) = some rs := by
  induction rs with
  | nil => rfl
  | cons r rest ih =>
    simp [parseRowsJ, h r (by simp), ih (fun r hr => h r (by simp [hr]))]

theorem parseDataJ_datasetToJson (d : Dataset)
    (h : ∀ r ∈ d.rows, parseRowJ (rowToJson r) = some r) :
    parseDataJ (datasetToJson d) = some d := by
  simp [datasetToJson, parseDataJ, jsonGet, parseHeadersJ_map, parseRowsJ_map d.rows h]

/-- C4: for every valid dataset, loading the file produced by the save
pipeline — `JSON.stringify(prepareData(D))` written to disk, read back,
parsed, schema-validated and normalized — yields exactly
`applyLoadedData (prepareData D)`: the inbound normalization of the
persisted snapshot. -/
theorem C4_round_trip (d : Dataset) (hv : validDataset d = true) :
    loadFromJson (datasetToJson (prepareData d)) =
      some (applyLoadedData (prepareData d)) := by
  have hrow : ∀ r ∈ (prepareData d).rows, parseRowJ (rowToJson r) = some r := by
    intro r hr
    simp only [prepareData, List.mem_map] at hr
    obtain ⟨r0, hr0, rfl⟩ := hr
    rw [validDataset, List.all_eq_true] at hv
    have hv0 := hv r0 hr0
    simp only [Bool.and_eq_true, List.all_eq_true, decide_eq_true_eq] at hv0
    obtain ⟨⟨hdate, hcells⟩, hnodup⟩ := hv0
    have hkeys : ((r0.values.map (fun kv =>
        (kv.1, if jsIsNaN kv.2 then JsVal.num 0 else kv.2))).map Prod.fst).Nodup := by
      simpa [List.map_map, Function.comp_def] using hnodup
    have hfe : fromEntries (r0.values.map (fun kv =>
        (kv.1, if jsIsNaN kv.2 then JsVal.num 0 else kv.2))) =
        r0.values.map (fun kv => (kv.1, if jsIsNaN kv.2 then JsVal.num 0 else kv.2)) :=
      fromEntries_eq_self _ hkeys
    apply parseRowJ_rowToJson
    · exact hdate
    · intro kv hkv
      rw [hfe] at hkv
      simp only [List.mem_map] at hkv
      obtain ⟨⟨k0, v0⟩, hkv0, rfl⟩ := hkv
      have hsav := hcells (k0, v0) hkv0
      cases v0 with
      | undef => exact ⟨0, rfl⟩
      | nan => exact ⟨0, rfl⟩
      | inf => exact absurd hsav (by simp [savableVal])
      | negInf => exact absurd hsav (by simp [savableVal])
      | num q => exact ⟨q, rfl⟩
  unfold loadFromJson
  rw [parseDataJ_datasetToJson _ hrow]
  rfl

/-- A live dataset with a transient `NaN` cell and a row missing its
`hidden` flag. -/
def liveDataset : Dataset :=
  { headers := ["A", "B"],
    rows := [{ date := "2027-10-14",
               values := [("A", JsVal.num 1), ("B", JsVal.nan)],
               hidden := none }] }

/-- C4 witness: the round-trip law at `liveDataset`. -/
theorem C4_witness :
    loadFromJson (datasetToJson (prepareData liveDataset)) =
      some (applyLoadedData (prepareData liveDataset)) :=
  C4_round_trip liveDataset (by decide)
